import Mathlib

/-!
Verification of the Finance Manager aggregation engine.

The JavaScript source stores transactions as records with a `type`
("income" / "expense"), a numeric `amount`, free-text `category` and
`item` labels, and a `date` string.  Date-bounded queries call
`new Date(t.date)` and compare the *local-timezone* getters
`getFullYear() / getMonth() / getDate()` against the query arguments.

Modelling choices:

* Amounts are modelled as exact rationals (`ℚ`); IEEE-754 rounding of
  JavaScript numbers is out of scope.
* A date string is modelled by its parse result `JSDateVal`:
  - `dateOnly y m d` models an ISO "YYYY-MM-DD" string (ECMA-262 parses
    such date-only forms as *UTC* midnight);
  - `dateTime y m d mins` models an ISO date-time string without a zone
    designator (parsed as *local* time, so local getters recover the
    written calendar day; the time of day `mins` is ignored by the
    getters at day granularity);
  - `invalid` models an unparseable string (`new Date` yields an Invalid
    Date, whose getters return NaN, and `NaN === x` is false for every
    `x`).
  Field ranges are not constrained: every string that parses at all
  yields in-range components, so theorems quantified over all `Int`
  components cover all reachable values.
* The local timezone is an explicit parameter `tz`: the signed offset in
  minutes added to UTC to obtain local time (UTC-05:00 is `tz = -300`).
* Calendar arithmetic is the proleptic Gregorian calendar mandated by
  ECMA-262, via the standard civil-from-days / days-from-civil epoch-day
  conversions.  `civilFromDays` resolves the month by an explicit
  day-of-year ladder, which makes the ECMA-262 guarantee
  `0 ≤ getMonth() ≤ 11` hold by construction.
-/

/-- Days since the Unix epoch of a civil (proleptic Gregorian) date,
with `m` 1-based. -/
def daysFromCivil (y m d : Int) : Int :=
  let yAdj := if m ≤ 2 then y - 1 else y
  let era := Int.ediv yAdj 400
  let yoe := yAdj - era * 400
  let mp := if m > 2 then m - 3 else m + 9
  let doy := Int.ediv (153 * mp + 2) 5 + d - 1
  let doe := yoe * 365 + Int.ediv yoe 4 - Int.ediv yoe 100 + doy
  era * 146097 + doe - 719468

/-- Resolve a day-of-year (counted from March 1 of the shifted year `y`)
to a civil `(year, month, day)` triple; cumulative month lengths
March..February. -/
def monthLadder (y doy : Int) : Int × Int × Int :=
  if doy < 31 then (y, 3, doy + 1)
  else if doy < 61 then (y, 4, doy - 30)
  else if doy < 92 then (y, 5, doy - 60)
  else if doy < 122 then (y, 6, doy - 91)
  else if doy < 153 then (y, 7, doy - 121)
  else if doy < 184 then (y, 8, doy - 152)
  else if doy < 214 then (y, 9, doy - 183)
  else if doy < 245 then (y, 10, doy - 214)
  else if doy < 275 then (y, 11, doy - 244)
  else if doy < 306 then (y, 12, doy - 274)
  else if doy < 337 then (y + 1, 1, doy - 305)
  else (y + 1, 2, doy - 336)

/-- Civil (proleptic Gregorian) date of an epoch day number; the month
component is 1-based. -/
def civilFromDays (z : Int) : Int × Int × Int :=
  let zShifted := z + 719468
  let era := Int.ediv zShifted 146097
  let doe := zShifted - era * 146097
  let yoe := Int.ediv (doe - Int.ediv doe 1460 + Int.ediv doe 36524 - Int.ediv doe 146096) 365
  let y := yoe + era * 400
  let doy := doe - (365 * yoe + Int.ediv yoe 4 - Int.ediv yoe 100)
  monthLadder y doy

/-- Parse result of a transaction's `date` string (see module docstring). -/
inductive JSDateVal where
  | dateOnly (y m d : Int)
  | dateTime (y m d mins : Int)
  | invalid
deriving DecidableEq

/-- The triple `(getFullYear(), getMonth(), getDate())` of
`new Date(dateString)` evaluated in a timezone at offset `tz` minutes
from UTC; `none` for an Invalid Date (getters return NaN).  `getMonth()`
is 0-based, hence the `- 1`. -/
def jsLocalYMD (tz : Int) : JSDateVal → Option (Int × Int × Int)
  | .dateOnly y m d =>
      let utcMinutes := daysFromCivil y m d * 1440
      let localDay := Int.ediv (utcMinutes + tz) 1440
      let c := civilFromDays localDay
      some (c.1, c.2.1 - 1, c.2.2)
  | .dateTime y m d _mins =>
      let c := civilFromDays (daysFromCivil y m d)
      some (c.1, c.2.1 - 1, c.2.2)
  | .invalid => none

/-- A transaction record.  `item` is `""` when absent (the source reads
it as `(t.item || '')`, and `'' || ''` is `''`). -/
structure Txn where
  id : Int
  type : String
  amount : ℚ
  category : String
  item : String
  date : JSDateVal
deriving DecidableEq

/-- The filter body of `getMonthlyTransactions`:
`tDate.getFullYear() === year && tDate.getMonth() === month`, with
`false` on an Invalid Date since `NaN === x` is always false. -/
def jsMonthMatches (tz : Int) (d : JSDateVal) (year month : Int) : Bool :=
  match jsLocalYMD tz d with
  | some (y, m, _) => y == year && m == month
  | none => false

/-- The filter body of `getDailyTransactions`. -/
def jsDayMatches (tz : Int) (d : JSDateVal) (year month day : Int) : Bool :=
  match jsLocalYMD tz d with
  | some (y, m, dd) => y == year && m == month && dd == day
  | none => false

/-- `FinanceManager.getMonthlyTransactions(year, month)` (app.js:139-144)
over the snapshot `txns`. -/
def getMonthlyTransactions (tz : Int) (txns : List Txn) (year month : Int) : List Txn :=
  txns.filter fun t => jsMonthMatches tz t.date year month

/-- `FinanceManager.getDailyTransactions(year, month, day)` (app.js:146-153). -/
def getDailyTransactions (tz : Int) (txns : List Txn) (year month day : Int) : List Txn :=
  txns.filter fun t => jsDayMatches tz t.date year month day

/-- `list.reduce((sum, t) => sum + t.amount, 0)`. -/
def amountReduce (l : List Txn) : ℚ :=
  l.foldl (fun s t => s + t.amount) 0

/-- Mathematical sum of the amounts of a list of transactions (the
specification-side notion of "sum of amounts"). -/
def sumAmounts (l : List Txn) : ℚ :=
  (l.map Txn.amount).sum

/-- Result record of `calculateMonthlyTotals`. -/
structure MonthlyTotals where
  income : ℚ
  expense : ℚ
  balance : ℚ
deriving DecidableEq

/-- `FinanceManager.calculateMonthlyTotals(year, month)` (app.js:155-167). -/
def calculateMonthlyTotals (tz : Int) (txns : List Txn) (year month : Int) : MonthlyTotals :=
  let monthlyTransactions := getMonthlyTransactions tz txns year month
  let income := amountReduce (monthlyTransactions.filter fun t => t.type == "income")
  let expense := amountReduce (monthlyTransactions.filter fun t => t.type == "expense")
  { income := income, expense := expense, balance := income - expense }

/-- Specification-side description: the month's transactions of the
given `type`, selected by one pass over the snapshot. -/
def monthTypeTxns (tz : Int) (txns : List Txn) (year month : Int) (ty : String) : List Txn :=
  txns.filter fun t => jsMonthMatches tz t.date year month && t.type == ty

theorem monthLadder_month_bound (y doy : Int) :
    1 ≤ (monthLadder y doy).2.1 ∧ (monthLadder y doy).2.1 ≤ 12 := by
  unfold monthLadder
  by_cases h1 : doy < 31 <;> by_cases h2 : doy < 61 <;> by_cases h3 : doy < 92 <;>
    by_cases h4 : doy < 122 <;> by_cases h5 : doy < 153 <;> by_cases h6 : doy < 184 <;>
    simp [h1, h2, h3, h4, h5, h6] <;>
    by_cases h7 : doy < 214 <;> by_cases h8 : doy < 245 <;> by_cases h9 : doy < 275 <;>
    by_cases h10 : doy < 306 <;> by_cases h11 : doy < 337 <;>
    simp [h7, h8, h9, h10, h11]

theorem civilFromDays_month_bound (z : Int) :
    1 ≤ (civilFromDays z).2.1 ∧ (civilFromDays z).2.1 ≤ 12 :=
  monthLadder_month_bound _ _

/-- Every valid date resolves to a 0-based month in `[0, 11]`, as
ECMA-262 guarantees for `getMonth()`. -/
theorem jsLocalYMD_month_bound (tz : Int) (d : JSDateVal) (y m dd : Int)
    (h : jsLocalYMD tz d = some (y, m, dd)) : 0 ≤ m ∧ m ≤ 11 := by
  cases d with
  | dateOnly y0 m0 d0 =>
      simp only [jsLocalYMD, Option.some.injEq, Prod.mk.injEq] at h
      obtain ⟨-, hm, -⟩ := h
      have := civilFromDays_month_bound
        (Int.ediv (daysFromCivil y0 m0 d0 * 1440 + tz) 1440)
      omega
  | dateTime y0 m0 d0 mins0 =>
      simp only [jsLocalYMD, Option.some.injEq, Prod.mk.injEq] at h
      obtain ⟨-, hm, -⟩ := h
      have := civilFromDays_month_bound (daysFromCivil y0 m0 d0)
      omega
  | invalid => simp [jsLocalYMD] at h

theorem filter_filter_and (p q : Txn → Bool) (l : List Txn) :
    (l.filter q).filter p = l.filter fun a => q a && p a := by
  induction l with
  | nil => rfl
  | cons a l ih =>
      by_cases hq : q a <;> by_cases hp : p a <;>
        simp [List.filter_cons, hq, hp, ih]

theorem amountReduce_go (l : List Txn) :
    ∀ a : ℚ, l.foldl (fun s t => s + t.amount) a = a + sumAmounts l := by
  induction l with
  | nil => intro a; simp [sumAmounts]
  | cons t l ih =>
      intro a
      rw [List.foldl_cons, ih (a + t.amount)]
      simp [sumAmounts]
      ring

theorem amountReduce_eq (l : List Txn) : amountReduce l = sumAmounts l := by
  have h := amountReduce_go l 0
  rw [amountReduce, h, zero_add]

/-- C1: `calculateMonthlyTotals(year, month)` returns `income` equal to
the sum of amounts of the month's income transactions, `expense` equal
to the sum of amounts of the month's expense transactions (one pass over
the snapshot: nothing outside the month contributes, nothing is counted
twice), `balance = income - expense`, and an empty snapshot yields all
zeros. -/
theorem c1_calculateMonthlyTotals_correct (tz year month : Int) (txns : List Txn) :
    (calculateMonthlyTotals tz txns year month).income
        = sumAmounts (monthTypeTxns tz txns year month "income")
    ∧ (calculateMonthlyTotals tz txns year month).expense
        = sumAmounts (monthTypeTxns tz txns year month "expense")
    ∧ (calculateMonthlyTotals tz txns year month).balance
        = (calculateMonthlyTotals tz txns year month).income
          - (calculateMonthlyTotals tz txns year month).expense
    ∧ calculateMonthlyTotals tz [] year month = ⟨0, 0, 0⟩ := by
  refine ⟨?_, ?_, rfl, ?_⟩
  · simp only [calculateMonthlyTotals, getMonthlyTransactions, monthTypeTxns,
      amountReduce_eq, filter_filter_and]
  · simp only [calculateMonthlyTotals, getMonthlyTransactions, monthTypeTxns,
      amountReduce_eq, filter_filter_and]
  · simp [calculateMonthlyTotals, getMonthlyTransactions, amountReduce]

/-- ASCII whitespace trimmed by `String.prototype.trim` (exotic Unicode
space code points are not used by the claims). -/
def isWsChar (c : Char) : Bool :=
  c == ' ' || c == '\t' || c == '\n' || c == '\r'

/-- `s.trim()`. -/
def jsTrim (s : String) : String :=
  String.mk (((s.data.dropWhile isWsChar).reverse.dropWhile isWsChar).reverse)

/-- `s.toLowerCase()` (ASCII range; the classification table only uses
ASCII letters). -/
def jsLower (s : String) : String :=
  String.mk (s.data.map Char.toLower)

/-- The non-controllable test of `updateMonthlyView` (app.js:535-545)
and `showBreakdown` (app.js:885-891):
`cat === 'emi' || cat === 'emis' || cat === 'investment' ||
 cat === 'investments' || (cat === 'home' && item === 'home')`
after `.trim().toLowerCase()` on both fields. -/
def isNonControllable (category item : String) : Bool :=
  let cat := jsLower (jsTrim category)
  let it := jsLower (jsTrim item)
  cat == "emi" || cat == "emis" || cat == "investment" || cat == "investments" ||
    (cat == "home" && it == "home")

/-- Modelled from the spec's wording of the classification rule table:
category (trimmed, lowercased) in the fixed set, or category "home" with
item "home". -/
def specNonControllable (category item : String) : Prop :=
  jsLower (jsTrim category) ∈ (["emi", "emis", "investment", "investments"] : List String)
  ∨ (jsLower (jsTrim category) = "home" ∧ jsLower (jsTrim item) = "home")

/-- C2: the code's controllability test marks a transaction
non-controllable exactly under the spec's rule table, and on the spec's
two examples: category `" Home "` with item `"HOME "` is
non-controllable, category `"Home"` with item `"Rent"` is controllable. -/
theorem c2_classification_correct :
    (∀ category item : String,
      isNonControllable category item = true ↔ specNonControllable category item)
    ∧ isNonControllable " Home " "HOME " = true
    ∧ isNonControllable "Home" "Rent" = false := by
  refine ⟨fun category item => ?_, by decide, by decide⟩
  simp only [isNonControllable, specNonControllable, List.mem_cons,
    List.not_mem_nil, or_false, Bool.or_eq_true, Bool.and_eq_true, beq_iff_eq]
  tauto

/-- The controllable / non-controllable accumulation loop of
`updateMonthlyView` (app.js:528-548): first component `controllable`,
second `nonControllable`. -/
def controllableSplit (tz : Int) (txns : List Txn) (year month : Int) : ℚ × ℚ :=
  let expenses := (getMonthlyTransactions tz txns year month).filter fun t => t.type == "expense"
  expenses.foldl
    (fun acc t =>
      if isNonControllable t.category t.item then (acc.1, acc.2 + t.amount)
      else (acc.1 + t.amount, acc.2))
    (0, 0)

theorem controllableSplit_go (l : List Txn) :
    ∀ a b : ℚ,
      (l.foldl
        (fun acc t =>
          if isNonControllable t.category t.item then (acc.1, acc.2 + t.amount)
          else (acc.1 + t.amount, acc.2))
        (a, b)).1
      + (l.foldl
        (fun acc t =>
          if isNonControllable t.category t.item then (acc.1, acc.2 + t.amount)
          else (acc.1 + t.amount, acc.2))
        (a, b)).2
      = a + b + sumAmounts l := by
  induction l with
  | nil => intro a b; simp [sumAmounts]
  | cons t l ih =>
      intro a b
      by_cases h : isNonControllable t.category t.item <;>
        · rw [List.foldl_cons]
          simp only [h, if_true, if_false, Bool.false_eq_true]
          rw [ih]
          simp [sumAmounts]
          ring

/-- C3: over any snapshot and month, `controllable + nonControllable`
equals the month's expense total, and an income transaction contributes
to neither bucket (prepending one leaves the split unchanged). -/
theorem c3_controllableSplit_correct (tz year month : Int) (txns : List Txn)
    (t : Txn) (hty : t.type = "income") :
    (controllableSplit tz txns year month).1 + (controllableSplit tz txns year month).2
      = (calculateMonthlyTotals tz txns year month).expense
    ∧ controllableSplit tz (t :: txns) year month = controllableSplit tz txns year month := by
  constructor
  · rw [controllableSplit, controllableSplit_go]
    simp only [calculateMonthlyTotals, amountReduce_eq]
    rw [zero_add, zero_add]
  · cases hm : jsMonthMatches tz t.date year month <;>
      simp [controllableSplit, getMonthlyTransactions, List.filter_cons, hm, hty]

/-- Concrete instantiation of `c3_controllableSplit_correct` (spec §8
example: a March 2024 salary income of 5000 affects neither bucket). -/
def salaryTxn : Txn :=
  { id := 1, type := "income", amount := 5000, category := "Salary", item := "",
    date := JSDateVal.dateOnly 2024 3 1 }

theorem c3_controllableSplit_witness :
    (controllableSplit 0 [] 2024 2).1 + (controllableSplit 0 [] 2024 2).2
      = (calculateMonthlyTotals 0 [] 2024 2).expense
    ∧ controllableSplit 0 [salaryTxn] 2024 2 = controllableSplit 0 [] 2024 2 :=
  c3_controllableSplit_correct 0 2024 2 [] salaryTxn rfl

/-- A transaction is dated in `year` when its parsed date's local
`getFullYear()` is `year`. -/
def datedInYear (tz : Int) (t : Txn) (year : Int) : Prop :=
  ∃ p : Int × Int × Int, jsLocalYMD tz t.date = some p ∧ p.1 = year

theorem mem_getMonthlyTransactions (tz year month : Int) (txns : List Txn) (t : Txn) :
    t ∈ getMonthlyTransactions tz txns year month
      ↔ t ∈ txns ∧ jsMonthMatches tz t.date year month = true := by
  rw [getMonthlyTransactions, List.mem_filter]

/-- C9: for a fixed year, the twelve monthly query results partition the
transactions dated in that year: each such transaction occurs in exactly
one of `getMonthlyTransactions(year, 0) .. (year, 11)`, and a
transaction dated outside the year occurs in none of them. -/
theorem c9_month_partition (tz year : Int) (txns : List Txn) (t : Txn) (ht : t ∈ txns) :
    (datedInYear tz t year →
      ∃! month : Int, (0 ≤ month ∧ month ≤ 11)
        ∧ t ∈ getMonthlyTransactions tz txns year month)
    ∧ (¬ datedInYear tz t year →
      ∀ month : Int, t ∉ getMonthlyTransactions tz txns year month) := by
  constructor
  · rintro ⟨⟨y0, m0, d0⟩, hp, hy⟩
    simp only at hy
    subst hy
    refine ⟨m0, ⟨jsLocalYMD_month_bound tz t.date y0 m0 d0 hp, ?_⟩, ?_⟩
    · rw [mem_getMonthlyTransactions]
      refine ⟨ht, ?_⟩
      rw [jsMonthMatches, hp]
      simp
    · rintro m' ⟨-, hmem⟩
      rw [mem_getMonthlyTransactions] at hmem
      have hmatch := hmem.2
      rw [jsMonthMatches, hp] at hmatch
      simp only [Bool.and_eq_true, beq_iff_eq] at hmatch
      exact hmatch.2.symm
  · intro hnot month hmem
    rw [mem_getMonthlyTransactions] at hmem
    have hmatch := hmem.2
    rw [jsMonthMatches] at hmatch
    cases hp : jsLocalYMD tz t.date with
    | none => rw [hp] at hmatch; simp at hmatch
    | some p =>
        rw [hp] at hmatch
        obtain ⟨y0, m0, d0⟩ := p
        simp only [Bool.and_eq_true, beq_iff_eq] at hmatch
        exact hnot ⟨(y0, m0, d0), hp, hmatch.1⟩

def marchTxn : Txn :=
  { id := 2, type := "expense", amount := 1200, category := "EMI", item := "",
    date := JSDateVal.dateOnly 2024 3 5 }

theorem c9_month_partition_witness :
    ∃! month : Int, (0 ≤ month ∧ month ≤ 11)
      ∧ marchTxn ∈ getMonthlyTransactions 0 [marchTxn] 2024 month :=
  (c9_month_partition 0 2024 [marchTxn] marchTxn (by simp)).1
    ⟨(2024, 2, 5), by decide, rfl⟩

/-- C4: `getDailyTransactions` parses the stored date-only string with
`new Date(...)` (UTC midnight) but compares *local* getters, so west of
UTC (here UTC-05:00, `tz = -300`) a transaction written for 2024-03-05
is not returned for (2024, 2, 5) and is returned for the previous
calendar day (2024, 2, 4) instead; a month-boundary date even lands in
the previous month.  This contradicts the required calendar-date-only
treatment. -/
theorem c4_timezone_day_shift :
    marchTxn.date = JSDateVal.dateOnly 2024 3 5
    ∧ getDailyTransactions 0 [marchTxn] 2024 2 5 = [marchTxn]
    ∧ getDailyTransactions (-300) [marchTxn] 2024 2 5 = []
    ∧ getDailyTransactions (-300) [marchTxn] 2024 2 4 = [marchTxn]
    ∧ salaryTxn.date = JSDateVal.dateOnly 2024 3 1
    ∧ getMonthlyTransactions (-300) [salaryTxn] 2024 2 = []
    ∧ getMonthlyTransactions (-300) [salaryTxn] 2024 1 = [salaryTxn] := by
  refine ⟨rfl, by decide, by decide, by decide, rfl, by decide, by decide⟩

/-- A JavaScript value reachable in the `categoryTotals` accumulator
object: a number, a string, or a function inherited from
`Object.prototype`.  The concrete text of garbage strings produced by
concatenating a function with a number is irrelevant, so strings carry
no payload. -/
inductive JSVal where
  | num (q : ℚ)
  | str
  | fn
deriving DecidableEq

/-- Own properties of `Object.prototype` on which a plain `{}` object
lookup does not return `undefined`: the ECMA-262 core methods, the
Annex-B legacy methods `__defineGetter__` / `__defineSetter__` /
`__lookupGetter__` / `__lookupSetter__` (present in every web browser
and in Node, the environments this code runs in), and the `__proto__`
accessor.  All of them are functions (truthy); `__proto__` (an
accessor) is listed so that theorems can exclude every colliding name,
though its exotic setter behaviour is never exercised by any theorem
below. -/
def protoProps : List String :=
  ["constructor", "hasOwnProperty", "isPrototypeOf", "propertyIsEnumerable",
   "toLocaleString", "toString", "valueOf",
   "__defineGetter__", "__defineSetter__", "__lookupGetter__", "__lookupSetter__",
   "__proto__"]

/-- Own-property lookup in an insertion-ordered object. -/
def objGetOwn : List (String × JSVal) → String → Option JSVal
  | [], _ => none
  | (k, v) :: rest, key => if k = key then some v else objGetOwn rest key

/-- Property lookup with the `Object.prototype` fallback:
`obj[key]` is the own property if present, else the inherited function
for prototype property names, else `undefined` (`none`). -/
def objGet (obj : List (String × JSVal)) (key : String) : Option JSVal :=
  match objGetOwn obj key with
  | some v => some v
  | none => if key ∈ protoProps then some JSVal.fn else none

/-- Property assignment: replaces an existing own property in place,
otherwise appends (JavaScript objects preserve insertion order for
string keys). -/
def objSet : List (String × JSVal) → String → JSVal → List (String × JSVal)
  | [], key, v => [(key, v)]
  | (k, w) :: rest, key, v =>
      if k = key then (key, v) :: rest else (k, w) :: objSet rest key v

/-- JavaScript truthiness of a property read: `undefined` and `0` are
falsy; the garbage strings arising here are non-empty, hence truthy. -/
def jsTruthy : Option JSVal → Bool
  | none => false
  | some (JSVal.num q) => decide (q ≠ 0)
  | some JSVal.str => true
  | some JSVal.fn => true

/-- `v + amount` for a property value `v`: number addition if `v` is a
number, otherwise string concatenation (a function operand is coerced to
its source string). -/
def jsAddAmount : JSVal → ℚ → JSVal
  | JSVal.num a, q => JSVal.num (a + q)
  | JSVal.str, _ => JSVal.str
  | JSVal.fn, _ => JSVal.str

/-- One iteration of the `getExpensesByCategory` loop (app.js:174-179):
`if (!categoryTotals[t.category]) categoryTotals[t.category] = 0;
 categoryTotals[t.category] += t.amount;`.
After the guard the property always reads as defined, so the `getD`
default is never used. -/
def categoryTotalsStep (obj : List (String × JSVal)) (t : Txn) : List (String × JSVal) :=
  let obj1 := if jsTruthy (objGet obj t.category) then obj
              else objSet obj t.category (JSVal.num 0)
  objSet obj1 t.category (jsAddAmount ((objGet obj1 t.category).getD (JSVal.num 0)) t.amount)

/-- `FinanceManager.getExpensesByCategory(year, month)` (app.js:169-182),
as the insertion-ordered own-property list of the accumulator object. -/
def getExpensesByCategory (tz : Int) (txns : List Txn) (year month : Int) :
    List (String × JSVal) :=
  ((getMonthlyTransactions tz txns year month).filter
    fun t => t.type == "expense").foldl categoryTotalsStep []

/-- C7: over *every* snapshot, a transaction whose `date` does not
parse is excluded from every date-bounded query result (its NaN getters
never satisfy the `===` comparisons), and adding it to any snapshot —
in particular one of ordinary, valid-date transactions — leaves every
date-bounded query and every aggregate built on them unchanged.  All
modelled operations are total functions by construction, so nothing
throws. -/
theorem c7_malformed_date_excluded (tz year month day : Int) (txns : List Txn)
    (t : Txn) (hd : t.date = JSDateVal.invalid) :
    t ∉ getMonthlyTransactions tz txns year month
    ∧ t ∉ getDailyTransactions tz txns year month day
    ∧ getMonthlyTransactions tz (t :: txns) year month
        = getMonthlyTransactions tz txns year month
    ∧ getDailyTransactions tz (t :: txns) year month day
        = getDailyTransactions tz txns year month day
    ∧ calculateMonthlyTotals tz (t :: txns) year month
        = calculateMonthlyTotals tz txns year month
    ∧ getExpensesByCategory tz (t :: txns) year month
        = getExpensesByCategory tz txns year month := by
  have hnm : jsMonthMatches tz t.date year month = false := by
    rw [hd]; simp [jsMonthMatches, jsLocalYMD]
  have hnd : jsDayMatches tz t.date year month day = false := by
    rw [hd]; simp [jsDayMatches, jsLocalYMD]
  have hmonth : getMonthlyTransactions tz (t :: txns) year month
      = getMonthlyTransactions tz txns year month := by
    simp [getMonthlyTransactions, List.filter_cons, hnm]
  have hday : getDailyTransactions tz (t :: txns) year month day
      = getDailyTransactions tz txns year month day := by
    simp [getDailyTransactions, List.filter_cons, hnd]
  refine ⟨?_, ?_, hmonth, hday, ?_, ?_⟩
  · intro hmem
    rw [getMonthlyTransactions, List.mem_filter, hnm] at hmem
    simp at hmem
  · intro hmem
    rw [getDailyTransactions, List.mem_filter, hnd] at hmem
    simp at hmem
  · simp only [calculateMonthlyTotals, hmonth]
  · simp only [getExpensesByCategory, hmonth]

def invalidDateTxn : Txn :=
  { id := 9, type := "expense", amount := 10, category := "Food", item := "",
    date := JSDateVal.invalid }

theorem c7_malformed_date_excluded_witness :
    invalidDateTxn ∉ getMonthlyTransactions 0 [invalidDateTxn, salaryTxn] 2024 2
    ∧ invalidDateTxn ∉ getDailyTransactions 0 [invalidDateTxn, salaryTxn] 2024 2 5
    ∧ getMonthlyTransactions 0 (invalidDateTxn :: [invalidDateTxn, salaryTxn]) 2024 2
        = getMonthlyTransactions 0 [invalidDateTxn, salaryTxn] 2024 2
    ∧ getDailyTransactions 0 (invalidDateTxn :: [invalidDateTxn, salaryTxn]) 2024 2 5
        = getDailyTransactions 0 [invalidDateTxn, salaryTxn] 2024 2 5
    ∧ calculateMonthlyTotals 0 (invalidDateTxn :: [invalidDateTxn, salaryTxn]) 2024 2
        = calculateMonthlyTotals 0 [invalidDateTxn, salaryTxn] 2024 2
    ∧ getExpensesByCategory 0 (invalidDateTxn :: [invalidDateTxn, salaryTxn]) 2024 2
        = getExpensesByCategory 0 [invalidDateTxn, salaryTxn] 2024 2 :=
  c7_malformed_date_excluded 0 2024 2 5 [invalidDateTxn, salaryTxn] invalidDateTxn rfl


theorem objGetOwn_objSet_self (obj : List (String × JSVal)) (k : String) (v : JSVal) :
    objGetOwn (objSet obj k v) k = some v := by
  induction obj with
  | nil => simp [objSet, objGetOwn]
  | cons p rest ih =>
      obtain ⟨k0, w⟩ := p
      by_cases h : k0 = k <;> simp [objSet, objGetOwn, h, ih]

theorem objGetOwn_objSet_ne (obj : List (String × JSVal)) (k c : String) (v : JSVal)
    (h : c ≠ k) : objGetOwn (objSet obj k v) c = objGetOwn obj c := by
  induction obj with
  | nil => simp [objSet, objGetOwn, Ne.symm h]
  | cons p rest ih =>
      obtain ⟨k0, w⟩ := p
      by_cases h0 : k0 = k
      · subst h0
        simp [objSet, objGetOwn, Ne.symm h]
      · simp [objSet, objGetOwn, h0, ih]

theorem objGet_eq_objGetOwn (obj : List (String × JSVal)) (c : String)
    (hc : c ∉ protoProps) : objGet obj c = objGetOwn obj c := by
  rw [objGet]
  cases h : objGetOwn obj c <;> simp [hc]

/-- Current numeric own value at a key, `0` when absent (matching the
guard-initialised reading of the accumulator). -/
def ownAmount (obj : List (String × JSVal)) (c : String) : ℚ :=
  match objGetOwn obj c with
  | some (JSVal.num q) => q
  | _ => 0

theorem categoryTotalsStep_get_self (obj : List (String × JSVal)) (t : Txn)
    (hc : t.category ∉ protoProps)
    (hn : ∀ v, objGetOwn obj t.category = some v → ∃ q, v = JSVal.num q) :
    objGetOwn (categoryTotalsStep obj t) t.category
      = some (JSVal.num (ownAmount obj t.category + t.amount)) := by
  have hgo := objGet_eq_objGetOwn obj t.category hc
  have hgo1 := objGet_eq_objGetOwn (objSet obj t.category (JSVal.num 0)) t.category hc
  cases hv : objGetOwn obj t.category with
  | none =>
      have h1 : jsTruthy (objGet obj t.category) = false := by rw [hgo, hv]; rfl
      have h2 : objGet (objSet obj t.category (JSVal.num 0)) t.category
          = some (JSVal.num 0) := by rw [hgo1, objGetOwn_objSet_self]
      simp [categoryTotalsStep, h1, h2, jsAddAmount, objGetOwn_objSet_self, ownAmount, hv]
  | some v =>
      obtain ⟨q, rfl⟩ := hn v hv
      by_cases hq : q = 0
      · subst hq
        have h1 : jsTruthy (objGet obj t.category) = false := by
          rw [hgo, hv]; simp [jsTruthy]
        have h2 : objGet (objSet obj t.category (JSVal.num 0)) t.category
            = some (JSVal.num 0) := by rw [hgo1, objGetOwn_objSet_self]
        simp [categoryTotalsStep, h1, h2, jsAddAmount, objGetOwn_objSet_self, ownAmount, hv]
      · have h2 : objGet obj t.category = some (JSVal.num q) := by rw [hgo, hv]
        simp [categoryTotalsStep, h2, jsTruthy, hq, jsAddAmount,
          objGetOwn_objSet_self, ownAmount, hv]

theorem categoryTotalsStep_get_ne (obj : List (String × JSVal)) (t : Txn) (c : String)
    (h : t.category ≠ c) :
    objGetOwn (categoryTotalsStep obj t) c = objGetOwn obj c := by
  rw [categoryTotalsStep]
  by_cases htr : jsTruthy (objGet obj t.category) <;>
    simp [htr, objGetOwn_objSet_ne _ _ _ _ (Ne.symm h)]

theorem categoryTotalsStep_num_preserved (obj : List (String × JSVal)) (t : Txn)
    (hc : t.category ∉ protoProps)
    (hn : ∀ v, objGetOwn obj t.category = some v → ∃ q, v = JSVal.num q) (c : String)
    (h : ∀ v, objGetOwn obj c = some v → ∃ q, v = JSVal.num q) :
    ∀ v, objGetOwn (categoryTotalsStep obj t) c = some v → ∃ q, v = JSVal.num q := by
  intro v hv
  by_cases hcat : t.category = c
  · subst hcat
    rw [categoryTotalsStep_get_self obj t hc hn] at hv
    exact ⟨_, (Option.some.inj hv).symm⟩
  · rw [categoryTotalsStep_get_ne obj t c hcat] at hv
    exact h v hv

theorem sumAmounts_cons (t : Txn) (l : List Txn) :
    sumAmounts (t :: l) = t.amount + sumAmounts l := by
  simp [sumAmounts]

theorem foldl_categoryTotals_lookup (es : List Txn) :
    ∀ (obj : List (String × JSVal)) (c : String), c ∉ protoProps →
      (∀ v, objGetOwn obj c = some v → ∃ q, v = JSVal.num q) →
      objGetOwn (es.foldl categoryTotalsStep obj) c =
        match objGetOwn obj c with
        | some _ => some (JSVal.num
            (ownAmount obj c + sumAmounts (es.filter fun t => t.category == c)))
        | none =>
            if (es.filter fun t => t.category == c) = [] then none
            else some (JSVal.num (sumAmounts (es.filter fun t => t.category == c))) := by
  induction es with
  | nil =>
      intro obj c hc hn
      cases hv : objGetOwn obj c with
      | none => simp [hv, List.filter_nil]
      | some v =>
          obtain ⟨q, rfl⟩ := hn v hv
          simp [hv, ownAmount, sumAmounts, List.filter_nil]
  | cons t rest ih =>
      intro obj c hc hn
      rw [List.foldl_cons]
      by_cases hcat : t.category = c
      · subst hcat
        have hself := categoryTotalsStep_get_self obj t hc hn
        have hn' := categoryTotalsStep_num_preserved obj t hc hn t.category hn
        rw [ih (categoryTotalsStep obj t) t.category hc hn', hself]
        have hown : ownAmount (categoryTotalsStep obj t) t.category
            = ownAmount obj t.category + t.amount := by
          simp [ownAmount, hself]
        rw [hown]
        have hfil : ((t :: rest).filter fun u => u.category == t.category)
            = t :: (rest.filter fun u => u.category == t.category) := by
          simp [List.filter_cons]
        rw [hfil, sumAmounts_cons]
        cases hv : objGetOwn obj t.category with
        | none =>
            have : ownAmount obj t.category = 0 := by simp [ownAmount, hv]
            rw [this]
            simp only [List.cons_ne_self, ne_eq]
            have hne : t :: (rest.filter fun u => u.category == t.category) ≠ [] := by
              simp
            simp [hne]
        | some v =>
            simp only []
            ring_nf
      · have hne := categoryTotalsStep_get_ne obj t c hcat
        have hn' : ∀ v, objGetOwn (categoryTotalsStep obj t) c = some v
            → ∃ q, v = JSVal.num q := by rw [hne]; exact hn
        rw [ih (categoryTotalsStep obj t) c hc hn', hne]
        have hown : ownAmount (categoryTotalsStep obj t) c = ownAmount obj c := by
          simp [ownAmount, hne]
        have hfil : ((t :: rest).filter fun u => u.category == c)
            = rest.filter fun u => u.category == c := by
          simp [List.filter_cons, hcat]
        rw [hown, hfil]

/-- Specification-side description: the month's expense transactions
bearing exactly the category `c`. -/
def monthCategoryExpenses (tz : Int) (txns : List Txn) (year month : Int) (c : String) :
    List Txn :=
  (monthTypeTxns tz txns year month "expense").filter fun t => t.category == c

/-- C5 (amended): for every category name that does not collide with an
`Object.prototype` property name, `getExpensesByCategory` maps it to the
sum of the month's expense amounts in that category, and omits it when
no transaction matches. -/
theorem c5_getExpensesByCategory_amended (tz year month : Int) (txns : List Txn)
    (c : String) (hc : c ∉ protoProps) :
    objGetOwn (getExpensesByCategory tz txns year month) c
      = if monthCategoryExpenses tz txns year month c = [] then none
        else some (JSVal.num (sumAmounts (monthCategoryExpenses tz txns year month c))) := by
  rw [getExpensesByCategory,
    foldl_categoryTotals_lookup _ [] c hc (by intro v hv; simp [objGetOwn] at hv)]
  have hlist : (((getMonthlyTransactions tz txns year month).filter
        fun t => t.type == "expense").filter fun t => t.category == c)
      = monthCategoryExpenses tz txns year month c := by
    rw [monthCategoryExpenses, monthTypeTxns, getMonthlyTransactions,
      filter_filter_and, filter_filter_and, filter_filter_and]
    congr 1
    funext a
    rw [Bool.and_assoc]
  simp only [objGetOwn, hlist]

def groceriesTxn : Txn :=
  { id := 3, type := "expense", amount := 300, category := "Food", item := "Groceries",
    date := JSDateVal.dateOnly 2024 3 10 }

theorem c5_getExpensesByCategory_witness :
    objGetOwn (getExpensesByCategory 0 [groceriesTxn] 2024 2) "Food"
      = if monthCategoryExpenses 0 [groceriesTxn] 2024 2 "Food" = [] then none
        else some (JSVal.num (sumAmounts (monthCategoryExpenses 0 [groceriesTxn] 2024 2 "Food"))) :=
  c5_getExpensesByCategory_amended 0 2024 2 [groceriesTxn] "Food" (by decide)

/-- An expense whose category collides with `Object.prototype.toString`. -/
def toStringTxn : Txn :=
  { id := 5, type := "expense", amount := 100, category := "toString", item := "",
    date := JSDateVal.dateOnly 2024 3 5 }

/-- C5 (counterexample): with the single March-2024 expense of amount
100 in category `"toString"`, the guard `!categoryTotals["toString"]`
sees the inherited (truthy) `Object.prototype.toString` function, skips
initialisation, and `+=` concatenates a function with a number, so the
result maps `"toString"` to a garbage string instead of the sum 100. -/
theorem c5_getExpensesByCategory_counterexample :
    getExpensesByCategory 0 [toStringTxn] 2024 2 = [("toString", JSVal.str)]
    ∧ sumAmounts [toStringTxn] = 100
    ∧ objGetOwn [("toString", JSVal.str)] "toString" ≠ some (JSVal.num 100) := by
  refine ⟨by decide, ?_, by decide⟩
  simp [sumAmounts, toStringTxn]

/-- JavaScript `+` on two accumulator values: number addition when both
are numbers, otherwise string concatenation (functions and strings
coerce to strings). -/
def jsAdd : JSVal → JSVal → JSVal
  | JSVal.num a, JSVal.num b => JSVal.num (a + b)
  | _, _ => JSVal.str

/-- `Object.values(categoryData).reduce((a, b) => a + b, 0)`
(updateExpenseSummary, app.js:568); `Object.values` yields the own
property values in insertion order. -/
def valuesSum (obj : List (String × JSVal)) : JSVal :=
  (obj.map Prod.snd).foldl jsAdd (JSVal.num 0)

/-- Every own property value of the object is a number. -/
def AllNum (obj : List (String × JSVal)) : Prop :=
  ∀ p ∈ obj, ∃ q, p.2 = JSVal.num q

/-- Numeric reading of a value (`0` for non-numbers; only applied under
`AllNum`). -/
def ratOf : JSVal → ℚ
  | JSVal.num q => q
  | JSVal.str => 0
  | JSVal.fn => 0

/-- Mathematical total of the numeric values of an object. -/
def ratTotal (obj : List (String × JSVal)) : ℚ :=
  (obj.map fun p => ratOf p.2).sum

theorem valuesSum_go (obj : List (String × JSVal)) (h : AllNum obj) :
    ∀ a : ℚ, (obj.map Prod.snd).foldl jsAdd (JSVal.num a) = JSVal.num (a + ratTotal obj) := by
  induction obj with
  | nil => intro a; simp [ratTotal]
  | cons p rest ih =>
      intro a
      obtain ⟨q, hq⟩ := h p (List.mem_cons_self p rest)
      have hrest : AllNum rest := fun u hu => h u (List.mem_cons_of_mem p hu)
      rw [List.map_cons, List.foldl_cons, hq]
      show (rest.map Prod.snd).foldl jsAdd (jsAdd (JSVal.num a) (JSVal.num q)) = _
      rw [jsAdd, ih hrest (a + q)]
      have : ratTotal (p :: rest) = q + ratTotal rest := by
        simp [ratTotal, hq, ratOf]
      rw [this]
      ring_nf

theorem valuesSum_eq_ratTotal (obj : List (String × JSVal)) (h : AllNum obj) :
    valuesSum obj = JSVal.num (ratTotal obj) := by
  rw [valuesSum, valuesSum_go obj h 0, zero_add]

theorem allNum_objGetOwn (obj : List (String × JSVal)) (c : String) (h : AllNum obj) :
    ∀ v, objGetOwn obj c = some v → ∃ q, v = JSVal.num q := by
  induction obj with
  | nil => intro v hv; simp [objGetOwn] at hv
  | cons p rest ih =>
      intro v hv
      obtain ⟨k0, w⟩ := p
      rw [objGetOwn] at hv
      by_cases h0 : k0 = c
      · rw [if_pos h0] at hv
        obtain ⟨q, hq⟩ := h (k0, w) (List.mem_cons_self _ _)
        exact ⟨q, by rw [← Option.some.inj hv]; exact hq⟩
      · rw [if_neg h0] at hv
        exact ih (fun u hu => h u (List.mem_cons_of_mem _ hu)) v hv

theorem allNum_objSet (obj : List (String × JSVal)) (k : String) (q : ℚ) (h : AllNum obj) :
    AllNum (objSet obj k (JSVal.num q)) := by
  induction obj with
  | nil =>
      intro p hp
      rw [objSet, List.mem_singleton] at hp
      exact ⟨q, by rw [hp]⟩
  | cons p0 rest ih =>
      obtain ⟨k0, w⟩ := p0
      intro p hp
      rw [objSet] at hp
      by_cases h0 : k0 = k
      · rw [if_pos h0, List.mem_cons] at hp
        rcases hp with hp | hp
        · exact ⟨q, by rw [hp]⟩
        · exact h p (List.mem_cons_of_mem _ hp)
      · rw [if_neg h0, List.mem_cons] at hp
        rcases hp with hp | hp
        · exact h p (hp ▸ List.mem_cons_self _ _)
        · exact ih (fun u hu => h u (List.mem_cons_of_mem _ hu)) p hp

theorem ratTotal_objSet_replace (obj : List (String × JSVal)) (k : String) (q q' : ℚ)
    (h : objGetOwn obj k = some (JSVal.num q)) :
    ratTotal (objSet obj k (JSVal.num q')) = ratTotal obj - q + q' := by
  induction obj with
  | nil => simp [objGetOwn] at h
  | cons p rest ih =>
      obtain ⟨k0, w⟩ := p
      rw [objGetOwn] at h
      by_cases h0 : k0 = k
      · rw [if_pos h0] at h
        have hw : w = JSVal.num q := Option.some.inj h
        rw [objSet, if_pos h0]
        simp [ratTotal, hw, ratOf]
        ring
      · rw [if_neg h0] at h
        rw [objSet, if_neg h0]
        simp only [ratTotal, List.map_cons, List.sum_cons] at *
        rw [ih h]
        ring

theorem ratTotal_objSet_new (obj : List (String × JSVal)) (k : String) (v : JSVal)
    (h : objGetOwn obj k = none) :
    ratTotal (objSet obj k v) = ratTotal obj + ratOf v := by
  induction obj with
  | nil => simp [objSet, ratTotal]
  | cons p rest ih =>
      obtain ⟨k0, w⟩ := p
      rw [objGetOwn] at h
      by_cases h0 : k0 = k
      · rw [if_pos h0] at h; exact absurd h (by simp)
      · rw [if_neg h0] at h
        rw [objSet, if_neg h0]
        simp only [ratTotal, List.map_cons, List.sum_cons] at *
        rw [ih h]
        ring

theorem categoryTotalsStep_allNum (obj : List (String × JSVal)) (t : Txn)
    (hc : t.category ∉ protoProps) (h : AllNum obj) :
    AllNum (categoryTotalsStep obj t) := by
  have hgo := objGet_eq_objGetOwn obj t.category hc
  have hn := allNum_objGetOwn obj t.category h
  intro p hp
  have hstep : ∀ v, objGetOwn (categoryTotalsStep obj t) t.category = some v
      → ∃ q, v = JSVal.num q :=
    categoryTotalsStep_num_preserved obj t hc hn t.category hn
  rw [categoryTotalsStep] at hp
  set obj1 := if jsTruthy (objGet obj t.category) then obj
      else objSet obj t.category (JSVal.num 0) with hobj1
  have hobj1AllNum : AllNum obj1 := by
    rw [hobj1]
    by_cases htr : jsTruthy (objGet obj t.category)
    · rw [if_pos htr]; exact h
    · rw [if_neg htr]; exact allNum_objSet obj t.category 0 h
  have hval : ∃ q, jsAddAmount ((objGet obj1 t.category).getD (JSVal.num 0)) t.amount
      = JSVal.num q := by
    rw [objGet_eq_objGetOwn obj1 t.category hc]
    cases hv : objGetOwn obj1 t.category with
    | none => exact ⟨t.amount, by rw [Option.getD_none, jsAddAmount]; rw [zero_add]⟩
    | some v =>
        obtain ⟨q, hq⟩ := allNum_objGetOwn obj1 t.category hobj1AllNum v hv
        exact ⟨q + t.amount, by rw [Option.getD_some, hq, jsAddAmount]⟩
  obtain ⟨q, hq⟩ := hval
  rw [hq] at hp
  exact allNum_objSet obj1 t.category q hobj1AllNum p hp

theorem categoryTotalsStep_ratTotal (obj : List (String × JSVal)) (t : Txn)
    (hc : t.category ∉ protoProps) (h : AllNum obj) :
    ratTotal (categoryTotalsStep obj t) = ratTotal obj + t.amount := by
  have hgo := objGet_eq_objGetOwn obj t.category hc
  have hgo1 := objGet_eq_objGetOwn (objSet obj t.category (JSVal.num 0)) t.category hc
  rw [categoryTotalsStep]
  cases hv : objGetOwn obj t.category with
  | none =>
      have h1 : jsTruthy (objGet obj t.category) = false := by rw [hgo, hv]; rfl
      have h2 : objGet (objSet obj t.category (JSVal.num 0)) t.category
          = some (JSVal.num 0) := by rw [hgo1, objGetOwn_objSet_self]
      simp only [h1, Bool.false_eq_true, if_false, h2, Option.getD_some, jsAddAmount]
      rw [ratTotal_objSet_replace _ _ 0 _ (by rw [objGetOwn_objSet_self]),
        ratTotal_objSet_new _ _ _ hv]
      simp [ratOf]
  | some v =>
      obtain ⟨q, hq⟩ := allNum_objGetOwn obj t.category h v hv
      subst hq
      by_cases hq0 : q = 0
      · subst hq0
        have h1 : jsTruthy (objGet obj t.category) = false := by
          rw [hgo, hv]; simp [jsTruthy]
        have h2 : objGet (objSet obj t.category (JSVal.num 0)) t.category
            = some (JSVal.num 0) := by rw [hgo1, objGetOwn_objSet_self]
        simp only [h1, Bool.false_eq_true, if_false, h2, Option.getD_some, jsAddAmount]
        rw [ratTotal_objSet_replace _ _ 0 _ (by rw [objGetOwn_objSet_self]),
          ratTotal_objSet_replace _ _ 0 _ hv]
        ring
      · have h2 : objGet obj t.category = some (JSVal.num q) := by rw [hgo, hv]
        simp only [h2, jsTruthy, ne_eq, hq0, not_false_eq_true, decide_eq_true_eq,
          if_true, Option.getD_some, jsAddAmount]
        rw [ratTotal_objSet_replace _ _ q _ hv]
        ring

theorem foldl_categoryTotals_ratTotal (es : List Txn) :
    ∀ obj : List (String × JSVal), (∀ t ∈ es, t.category ∉ protoProps) → AllNum obj →
      AllNum (es.foldl categoryTotalsStep obj)
      ∧ ratTotal (es.foldl categoryTotalsStep obj) = ratTotal obj + sumAmounts es := by
  induction es with
  | nil => intro obj hes h; refine ⟨h, ?_⟩; simp [sumAmounts]
  | cons t rest ih =>
      intro obj hes h
      have hc : t.category ∉ protoProps := hes t (List.mem_cons_self _ _)
      have hrest : ∀ u ∈ rest, u.category ∉ protoProps :=
        fun u hu => hes u (List.mem_cons_of_mem _ hu)
      rw [List.foldl_cons]
      obtain ⟨hAll, hTot⟩ := ih (categoryTotalsStep obj t) hrest
        (categoryTotalsStep_allNum obj t hc h)
      refine ⟨hAll, ?_⟩
      rw [hTot, categoryTotalsStep_ratTotal obj t hc h, sumAmounts_cons]
      ring

/-- C6 (amended): provided no transaction's category collides with an
`Object.prototype` property name, the JavaScript sum of the values of
`getExpensesByCategory(year, month)` equals
`calculateMonthlyTotals(year, month).expense`. -/
theorem c6_categoryValuesSum_amended (tz year month : Int) (txns : List Txn)
    (h : ∀ t ∈ txns, t.category ∉ protoProps) :
    valuesSum (getExpensesByCategory tz txns year month)
      = JSVal.num ((calculateMonthlyTotals tz txns year month).expense) := by
  have hes : ∀ t ∈ ((getMonthlyTransactions tz txns year month).filter
      fun t => t.type == "expense"), t.category ∉ protoProps := by
    intro t ht
    exact h t (List.mem_of_mem_filter ((List.mem_filter.mp ht).1))
  obtain ⟨hAll, hTot⟩ := foldl_categoryTotals_ratTotal
    ((getMonthlyTransactions tz txns year month).filter fun t => t.type == "expense")
    [] hes (by intro p hp; simp at hp)
  rw [getExpensesByCategory, valuesSum_eq_ratTotal _ hAll, hTot]
  have hzero : ratTotal [] = 0 := rfl
  rw [hzero, zero_add]
  have : (calculateMonthlyTotals tz txns year month).expense
      = amountReduce ((getMonthlyTransactions tz txns year month).filter
          fun t => t.type == "expense") := rfl
  rw [this, amountReduce_eq]

theorem c6_categoryValuesSum_witness :
    valuesSum (getExpensesByCategory 0 [groceriesTxn, marchTxn] 2024 2)
      = JSVal.num ((calculateMonthlyTotals 0 [groceriesTxn, marchTxn] 2024 2).expense) :=
  c6_categoryValuesSum_amended 0 2024 2 [groceriesTxn, marchTxn] (by decide)

/-- C6 (counterexample): with the single March-2024 expense of amount
100 in category `"toString"`, the accumulator holds a garbage string, so
the JavaScript sum of the values is a string and cannot equal the
month's numeric expense total. -/
theorem c6_categoryValuesSum_counterexample :
    valuesSum (getExpensesByCategory 0 [toStringTxn] 2024 2) = JSVal.str
    ∧ valuesSum (getExpensesByCategory 0 [toStringTxn] 2024 2)
        ≠ JSVal.num ((calculateMonthlyTotals 0 [toStringTxn] 2024 2).expense) := by
  have h : valuesSum (getExpensesByCategory 0 [toStringTxn] 2024 2) = JSVal.str := by decide
  refine ⟨h, ?_⟩
  rw [h]
  exact fun hcontra => JSVal.noConfusion hcontra

/-- One step of the `showBreakdown` grouping loop (app.js:901-907),
which pushes each transaction onto `categoryData[t.category]`.
The grouping object preserves first-seen key order.  (For a category
named like an `Object.prototype` property the source would call `.push`
on the inherited function and throw; no theorem below exercises such a
category.) -/
def groupPush : List (String × List Txn) → Txn → List (String × List Txn)
  | [], t => [(t.category, [t])]
  | (k, l) :: rest, t =>
      if k = t.category then (k, l ++ [t]) :: rest else (k, l) :: groupPush rest t

def groupByCategory (l : List Txn) : List (String × List Txn) :=
  l.foldl groupPush []

/-- Stable insertion placing `x` after every group with a total at least
as large; together with the fold below this models the stable
`Array.prototype.sort` with comparator `totalB - totalA`
(app.js:910-915). -/
def insertByTotalDesc (x : String × List Txn) :
    List (String × List Txn) → List (String × List Txn)
  | [] => [x]
  | y :: ys =>
      if amountReduce x.2 ≤ amountReduce y.2 then y :: insertByTotalDesc x ys
      else x :: y :: ys

def sortByTotalDesc (l : List (String × List Txn)) : List (String × List Txn) :=
  l.foldl (fun acc x => insertByTotalDesc x acc) []

/-- `((catTotal / grandTotal) * 100)` as displayed; `none` models the
NaN (from `0/0`) or ±Infinity (from `x/0`) that JavaScript produces when
the grand total is zero. -/
def jsPercent (catTotal grandTotal : ℚ) : Option ℚ :=
  if grandTotal = 0 then none else some (catTotal / grandTotal * 100)

/-- The rows rendered by `showBreakdown(type, group)` (app.js:865-964):
per category its name, total, and displayed percentage of the group.
An empty filtered set renders no rows (early return). -/
def showBreakdownRows (tz : Int) (txns : List Txn) (year month : Int) (ty : String)
    (group : Option String) : List (String × ℚ × Option ℚ) :=
  let base := (getMonthlyTransactions tz txns year month).filter fun t => t.type == ty
  let transactions : List Txn := match group with
    | some g => base.filter fun (t : Txn) =>
        if g == "non-controllable" then isNonControllable t.category t.item
        else !(isNonControllable t.category t.item)
    | none => base
  if transactions.isEmpty then []
  else
    (sortByTotalDesc (groupByCategory transactions)).map fun (p : String × List Txn) =>
      (p.1, amountReduce p.2, jsPercent (amountReduce p.2) (amountReduce transactions))

/-- A (legitimate) zero-amount expense: the breakdown's grand total is
then zero while a row is still rendered. -/
def zeroFoodTxn : Txn :=
  { id := 4, type := "expense", amount := 0, category := "Food", item := "",
    date := JSDateVal.dateOnly 2024 3 5 }

/-- C8: when the grand total of the displayed set is zero (here a single
expense of amount 0), the code divides by zero and renders NaN for the
group's percentage (`none` in the model) instead of the required 0. -/
theorem c8_zero_total_percentage_bug :
    showBreakdownRows 0 [zeroFoodTxn] 2024 2 "expense" none = [("Food", 0, none)]
    ∧ (none : Option ℚ) ≠ some 0 := by
  have h1 : ((getMonthlyTransactions 0 [zeroFoodTxn] 2024 2).filter
      fun (t : Txn) => t.type == "expense") = [zeroFoodTxn] := by decide
  refine ⟨?_, by decide⟩
  simp only [showBreakdownRows, h1]
  norm_num [amountReduce, groupByCategory, groupPush, sortByTotalDesc,
    insertByTotalDesc, jsPercent, zeroFoodTxn]

/-- The DELETE `/api/transactions/:id` handler body (server.js:179-189):
filters the stored list by `t.id !== id` and responds
`{success: true}` whether or not anything matched. -/
def serverDeleteTransactions (transactions : List Txn) (id : Int) : List Txn × Bool :=
  (transactions.filter fun t => t.id != id, true)

/-- `FinanceManager.deleteTransaction(id)` of the REST client
(part_000:131-148) on the success path (the server always responds 200
here): removes matching records from the local collection and resolves
`true`. -/
def clientDeleteTransaction (transactions : List Txn) (id : Int) : List Txn × Bool :=
  (transactions.filter fun t => t.id != id, true)

/-- C10: deleting by an id that matches no stored transaction still
reports success and leaves the stored list unchanged, on the server and
on the client alike; in general the only records removed are those
matching the id. -/
theorem c10_delete_missing_id (stored localTxns : List Txn) (id : Int)
    (hs : ∀ t ∈ stored, t.id ≠ id) (hl : ∀ t ∈ localTxns, t.id ≠ id) :
    serverDeleteTransactions stored id = (stored, true)
    ∧ clientDeleteTransaction localTxns id = (localTxns, true)
    ∧ (clientDeleteTransaction localTxns id).1
        = localTxns.filter fun t => t.id != id := by
  refine ⟨?_, ?_, rfl⟩
  · simp only [serverDeleteTransactions, Prod.mk.injEq, and_true]
    rw [List.filter_eq_self]
    intro a ha
    simpa using hs a ha
  · simp only [clientDeleteTransaction, Prod.mk.injEq, and_true]
    rw [List.filter_eq_self]
    intro a ha
    simpa using hl a ha

theorem c10_delete_missing_id_witness :
    serverDeleteTransactions [marchTxn] 999 = ([marchTxn], true)
    ∧ clientDeleteTransaction [groceriesTxn] 999 = ([groceriesTxn], true)
    ∧ (clientDeleteTransaction [groceriesTxn] 999).1
        = [groceriesTxn].filter fun t => t.id != 999 :=
  c10_delete_missing_id [marchTxn] [groceriesTxn] 999 (by decide) (by decide)
